import Mathlib

/-!
# NuvioStreaming — stream aggregation pipeline, shallow embedding

This file embeds the stream-aggregation core of the NuvioStreaming
repository in Lean 4 and proves the frozen claims about it.

The embedded code comes from:
* `src/src/screens/StreamsScreen.tsx` — `filterStreamsByQuality`,
  `sortStreams` (with its inner `getQualityNumeric` and
  `getProviderPriority`), `getBestStream`, the `sections` memo and the
  autoplay effect;
* `src/TV_SETUP.md` — `processStremioSource`, `processPluginSource`,
  `loadStreams` / `loadEpisodeStreams` (aggregate result map merge,
  request start, 15-second timeout).

JavaScript strings are modelled as `String` / `List Char`; the regular
expressions used by the quality classifier are modelled by explicit
scanning functions with JS `\b` word-boundary semantics; JS objects used
as string-keyed maps are modelled as association lists in insertion
order; the stable `Array.prototype.sort` is modelled by a stable sort
(`List.insertionSort`).
-/

namespace Nuvio

/-! ## JS character and string helpers -/

/-- JS regex word character `\w` = `[A-Za-z0-9_]`. -/
def isWordChar (c : Char) : Bool :=
  (97 ≤ c.toNat && c.toNat ≤ 122) || (65 ≤ c.toNat && c.toNat ≤ 90) ||
  (48 ≤ c.toNat && c.toNat ≤ 57) || c = '_'

/-- JS regex digit `\d`. -/
def isDigitChar (c : Char) : Bool :=
  48 ≤ c.toNat && c.toNat ≤ 57

/-- Value of a decimal digit run, as `parseInt` computes it on an
all-digit string. -/
def digitsToNat (ds : List Char) : Nat :=
  ds.foldl (fun n c => n * 10 + (c.toNat - 48)) 0

/-- `\b` holds immediately before a word character when the previous
character (`none` at the start of the string) is not a word character. -/
def boundaryBefore : Option Char → Bool
  | none => true
  | some p => !isWordChar p

/-- `\b` holds immediately after a word character when the next
character (none at the end of the string) is not a word character. -/
def boundaryAfter : List Char → Bool
  | [] => true
  | d :: _ => !isWordChar d

/-! ## Quality extraction (`getQualityNumeric`, StreamsScreen.tsx 648-671
and the identical copy at 728-751) -/

/-- One step of scanning for `/\b4k\b/i`: does a `4k` (any case) token
with word boundaries on both sides start at some position of the list,
given the character preceding the current position? -/
def has4kFrom : Option Char → List Char → Bool
  | _, [] => false
  | prev, c :: rest =>
    (boundaryBefore prev && c = '4' &&
      (match rest with
       | k :: rest2 => (k = 'k' || k = 'K') && boundaryAfter rest2
       | [] => false))
    || has4kFrom (some c) rest

/-- `/\b4k\b/i.test(title)`. -/
def has4kToken (s : List Char) : Bool := has4kFrom none s

/-- Maximal digit prefix of a list together with the rest. -/
def takeDigits : List Char → List Char × List Char
  | [] => ([], [])
  | c :: rest =>
    if isDigitChar c then
      let (ds, r) := takeDigits rest
      (c :: ds, r)
    else ([], c :: rest)

theorem takeDigits_snd_length : ∀ l : List Char, (takeDigits l).2.length ≤ l.length
  | [] => by simp [takeDigits]
  | c :: rest => by
    by_cases h : isDigitChar c = true
    · have := takeDigits_snd_length rest
      simp [takeDigits, h]
      omega
    · simp [takeDigits, h]

/-- `title.match(/(\d+)p/i)`: the number of the first (leftmost) digit
run that is immediately followed by `p` or `P`.  Scanning advances one
position at a time, exactly as the JS regex engine does; inside a digit
run whose following character is not `p`, every start position fails for
the same reason, so this agrees with the engine. -/
def firstDigitsP : List Char → Option Nat
  | [] => none
  | c :: rest =>
    if isDigitChar c then
      match (takeDigits (c :: rest)).2 with
      | p :: _ =>
        if p = 'p' || p = 'P' then some (digitsToNat (takeDigits (c :: rest)).1)
        else firstDigitsP rest
      | [] => firstDigitsP rest
    else firstDigitsP rest

/-- The resolution alternatives of the pattern
`/\b(240|360|480|720|1080|1440|2160|4320|8000)\b/i`, in source order. -/
def resolutionAlts : List (List Char) :=
  [['2','4','0'], ['3','6','0'], ['4','8','0'], ['7','2','0'],
   ['1','0','8','0'], ['1','4','4','0'], ['2','1','6','0'],
   ['4','3','2','0'], ['8','0','0','0']]

/-- Try the alternatives, in order, at the current position: an
alternative matches when it is a prefix of the remaining input and both
surrounding word boundaries hold. -/
def matchAltAt (prev : Option Char) (s : List Char) : Option Nat :=
  (resolutionAlts.find? fun alt =>
    boundaryBefore prev && alt.isPrefixOf s && boundaryAfter (s.drop alt.length)).map digitsToNat

/-- Scan the whole string for the first position where some resolution
alternative matches with word boundaries. -/
def bareResFrom : Option Char → List Char → Option Nat
  | _, [] => none
  | prev, c :: rest =>
    match matchAltAt prev (c :: rest) with
    | some n => some n
    | none => bareResFrom (some c) rest

/-- `title.match(/\b(240|...|8000)\b/i)` mapped through `parseInt`. -/
def bareRes (s : List Char) : Option Nat := bareResFrom none s

/-- `getQualityNumeric` (StreamsScreen.tsx 648-671): `0` for a missing
or empty title; `2160` on an explicit `4K` token; otherwise the first
number immediately followed by `p`; otherwise a bare known resolution
(kept only if within `240..8000`, as the source re-checks); else `0`. -/
def getQualityNumeric : Option String → Nat
  | none => 0
  | some t =>
    let cs := t.data
    if has4kToken cs then 2160
    else
      match firstDigitsP cs with
      | some n => n
      | none =>
        match bareRes cs with
        | some q => if 240 ≤ q && q ≤ 8000 then q else 0
        | none => 0

/-! ## Stream records and settings -/

/-- A stream record, with exactly the fields the embedded code reads.
`none` models a missing (`undefined`) field; JS `||` fallbacks also
treat the empty string as missing, which `jsOrStr` reproduces. -/
structure Stream where
  url : String
  name : Option String
  title : Option String
  addonId : Option String
  addonName : Option String
  /-- `behaviorHints?.cached` -/
  cachedHint : Option Bool
deriving DecidableEq, Repr

/-- JS `a || b` on possibly-missing strings: `a` unless it is absent or
empty. -/
def jsOrStr : Option String → Option String → Option String
  | some s, b => if s = "" then b else some s
  | none, b => b

/-- `stream.behaviorHints?.cached || false`. -/
def isCachedS (s : Stream) : Bool := s.cachedHint.getD false

/-- The title string the quality-exclusion filter tests:
`stream.title || stream.name || ''` (StreamsScreen.tsx 629). -/
def filterTitle (s : Stream) : String := (jsOrStr s.title s.name).getD ""

/-- The title the quality classifier parses: `a.name || a.title`
(StreamsScreen.tsx 687, 781). -/
def qualityTitle (s : Stream) : Option String := jsOrStr s.name s.title

/-! ## Provider priority (`getProviderPriority`, StreamsScreen.tsx
674-684 and 754-765) -/

/-- `getProviderPriority`: the installed-addon list is given as the list
of addon ids in installation order.  `findIndex` is modelled by
`findIdx?`; a found index `i` scores `50 - i`, an absent id scores 0. -/
def getProviderPriority (installedAddons : List String) (addonId : String) : Int :=
  match installedAddons.findIdx? (fun a => a = addonId) with
  | some i => 50 - (i : Int)
  | none => 0

/-- The id `sortStreams` feeds to `getProviderPriority`:
`stream.addonId || stream.addonName || ''` (StreamsScreen.tsx 675). -/
def streamAddonId (s : Stream) : String := (jsOrStr s.addonId s.addonName).getD ""

/-! ## The three-key comparator -/

/-- The common shape of both sort comparators: compare a first boolean
key descending (`true` first, returning `-1`/`1` exactly as the source
does), then two numeric keys descending by subtraction. -/
def cmp3 (x y : Bool × Int × Int) : Int :=
  if x.1 ≠ y.1 then (if x.1 then -1 else 1)
  else if x.2.1 ≠ y.2.1 then y.2.1 - x.2.1
  else if x.2.2 ≠ y.2.2 then y.2.2 - x.2.2
  else 0

theorem cmp3_nonpos_iff (x y : Bool × Int × Int) :
    cmp3 x y ≤ 0 ↔
      (x.1 = true ∧ y.1 = false) ∨
      (x.1 = y.1 ∧ (y.2.1 < x.2.1 ∨ (x.2.1 = y.2.1 ∧ (y.2.2 < x.2.2 ∨ x.2.2 = y.2.2)))) := by
  obtain ⟨a, b, c⟩ := x
  obtain ⟨d, e, f⟩ := y
  cases a <;> cases d <;> simp [cmp3] <;> constructor <;> intro h <;> omega

theorem cmp3_total (x y : Bool × Int × Int) : cmp3 x y ≤ 0 ∨ cmp3 y x ≤ 0 := by
  rw [cmp3_nonpos_iff, cmp3_nonpos_iff]
  obtain ⟨a, b, c⟩ := x
  obtain ⟨d, e, f⟩ := y
  cases a <;> cases d <;> simp <;> omega

theorem cmp3_trans {x y z : Bool × Int × Int} (h1 : cmp3 x y ≤ 0) (h2 : cmp3 y z ≤ 0) :
    cmp3 x z ≤ 0 := by
  rw [cmp3_nonpos_iff] at h1 h2 ⊢
  obtain ⟨a, b, c⟩ := x
  obtain ⟨d, e, f⟩ := y
  obtain ⟨g, i, j⟩ := z
  cases a <;> cases d <;> cases g <;> simp_all <;> omega

theorem cmp3_cached {x y : Bool × Int × Int} (h : cmp3 x y ≤ 0) (hy : y.1 = true) :
    x.1 = true := by
  rw [cmp3_nonpos_iff] at h
  rcases h with ⟨h, _⟩ | ⟨h, _⟩
  · exact h
  · rw [h, hy]

theorem cmp3_self (x : Bool × Int × Int) : cmp3 x x = 0 := by
  simp [cmp3]

/-! ## `sortStreams` (StreamsScreen.tsx 644-719) -/

/-- The keys the `sortStreams` comparator derives from a stream:
cached flag, quality, provider priority. -/
def sortQuality (s : Stream) : Int := (getQualityNumeric (qualityTitle s) : Int)

def sortPriority (installedAddons : List String) (s : Stream) : Int :=
  getProviderPriority installedAddons (streamAddonId s)

/-- The `sortStreams` comparator (StreamsScreen.tsx 686-718): cached
descending always; in `quality-then-scraper` mode quality descending
then provider priority descending; otherwise (default, provider-first)
provider priority descending then quality descending. -/
def sortCmp (installedAddons : List String) (sortMode : String) (a b : Stream) : Int :=
  if sortMode = "quality-then-scraper" then
    cmp3 (isCachedS a, sortQuality a, sortPriority installedAddons a)
         (isCachedS b, sortQuality b, sortPriority installedAddons b)
  else
    cmp3 (isCachedS a, sortPriority installedAddons a, sortQuality a)
         (isCachedS b, sortPriority installedAddons b, sortQuality b)

def sortLE (installedAddons : List String) (sortMode : String) (a b : Stream) : Bool :=
  sortCmp installedAddons sortMode a b ≤ 0

/-- `sortStreams`: `[...streams].sort(comparator)` — JS guarantees a
stable sort by the comparator, modelled by the stable
`List.insertionSort` under "the comparator is nonpositive". -/
def sortStreams (installedAddons : List String) (sortMode : String)
    (streams : List Stream) : List Stream :=
  streams.insertionSort (fun a b => sortLE installedAddons sortMode a b = true)

theorem sortLE_total (io : List String) (mode : String) (a b : Stream) :
    sortLE io mode a b || sortLE io mode b a := by
  simp only [sortLE, sortCmp]
  by_cases h : mode = "quality-then-scraper" <;>
    simp [h, Bool.or_eq_true, decide_eq_true_iff] <;>
    · rcases cmp3_total _ _ with h' | h'
      · exact Or.inl h'
      · exact Or.inr h'

theorem sortLE_trans (io : List String) (mode : String) (a b c : Stream)
    (h1 : sortLE io mode a b) (h2 : sortLE io mode b c) : sortLE io mode a c := by
  simp only [sortLE, sortCmp, decide_eq_true_iff] at h1 h2 ⊢
  by_cases h : mode = "quality-then-scraper" <;> simp [h] at h1 h2 ⊢ <;>
    exact cmp3_trans h1 h2

/-! ## Quality-exclusion filter (`filterStreamsByQuality`,
StreamsScreen.tsx 623-641) -/

/-- Case-insensitive character comparison: JS builds the pattern with
the `i` flag; ASCII folding via `Char.toLower`. -/
def toLowerList (s : List Char) : List Char := s.map Char.toLower

/-- Does `needle` occur as a contiguous substring of `hay`?  This is
what testing an escaped pattern with `RegExp(..., 'i')` computes, after
both sides are case-folded. -/
def isSubstr (needle : List Char) : List Char → Bool
  | [] => needle.isEmpty
  | h :: t => needle.isPrefixOf (h :: t) || isSubstr needle t

/-- `new RegExp(escape(excludedQuality), 'i').test(streamTitle)`. -/
def matchesPattern (streamTitle pattern : String) : Bool :=
  isSubstr (toLowerList pattern.data) (toLowerList streamTitle.data)

/-- `excludedQualities.some(...)` on a stream's filter title. -/
def matchesAnyExcluded (excludedQualities : List String) (s : Stream) : Bool :=
  excludedQualities.any (fun q => matchesPattern (filterTitle s) q)

/-- `filterStreamsByQuality`: unchanged when no exclusions are
configured; otherwise keep exactly the streams matching no excluded
pattern. -/
def filterStreamsByQuality (excludedQualities : List String)
    (streams : List Stream) : List Stream :=
  if excludedQualities.isEmpty then streams
  else streams.filter (fun s => !matchesAnyExcluded excludedQualities s)

/-! ## The aggregate result map

A JS object keyed by provider id, in insertion order, modelled as an
association list; object keys are unique, and `{...prev, [k]: v}`
replaces an existing key in place or appends a new one at the end. -/

structure ProviderEntry where
  addonName : String
  streams : List Stream
deriving DecidableEq, Repr

abbrev GroupedStreams := List (String × ProviderEntry)

/-- `{...prev, [k]: v}`: replace the first entry with key `k`, or append
a new entry at the end. -/
def setEntry : GroupedStreams → String → ProviderEntry → GroupedStreams
  | [], k, v => [(k, v)]
  | (k', v') :: rest, k, v =>
    if k' = k then (k, v) :: rest else (k', v') :: setEntry rest k v

/-- `map[k]` (as `Option`). -/
def lookupEntry (m : GroupedStreams) (k : String) : Option ProviderEntry :=
  (m.find? (fun p => p.1 = k)).map (fun p => p.2)

theorem lookupEntry_setEntry_self (m : GroupedStreams) (k : String) (v : ProviderEntry) :
    lookupEntry (setEntry m k v) k = some v := by
  induction m with
  | nil => simp [setEntry, lookupEntry, List.find?]
  | cons p rest ih =>
    obtain ⟨k', v'⟩ := p
    by_cases h : k' = k
    · simp [setEntry, h, lookupEntry, List.find?]
    · simpa [setEntry, h, lookupEntry, List.find?] using ih

theorem lookupEntry_setEntry_other (m : GroupedStreams) (k k' : String) (v : ProviderEntry)
    (h : k' ≠ k) : lookupEntry (setEntry m k v) k' = lookupEntry m k' := by
  have h' : k ≠ k' := Ne.symm h
  induction m with
  | nil => simp [setEntry, lookupEntry, List.find?, h']
  | cons p rest ih =>
    obtain ⟨k0, v0⟩ := p
    by_cases h0 : k0 = k
    · subst h0
      simp [setEntry, lookupEntry, List.find?, h']
    · by_cases h1 : k0 = k'
      · simp [setEntry, h0, lookupEntry, List.find?, h1, h]
      · simpa [setEntry, h0, lookupEntry, List.find?, h1] using ih

/-! ## `getBestStream` (StreamsScreen.tsx 722-821) -/

/-- One element of the `allStreams` array `getBestStream` builds
(StreamsScreen.tsx 768-794). -/
structure Enriched where
  stream : Stream
  quality : Int
  providerPriority : Int
  isDebrid : Bool
  isCached : Bool
deriving DecidableEq, Repr

/-- Enrich one stream of the entry keyed `addonId`
(StreamsScreen.tsx 780-793). -/
def enrich (installedAddons : List String) (addonId : String) (s : Stream) : Enriched :=
  let isDebrid := s.cachedHint.getD false
  { stream := s
    quality := (getQualityNumeric (qualityTitle s) : Int)
    providerPriority := getProviderPriority installedAddons addonId
    isDebrid := isDebrid
    isCached := isDebrid }

/-- `Object.entries(streamsData).forEach(...)` with the per-provider
quality filter applied first, flattened in entry order. -/
def flatAll (installedAddons : List String) (excludedQualities : List String)
    (m : GroupedStreams) : List Enriched :=
  (m.map (fun p =>
    (filterStreamsByQuality excludedQualities p.2.streams).map
      (enrich installedAddons p.1))).flatten

/-- The `getBestStream` comparator (StreamsScreen.tsx 799-816): cached
descending, then quality descending, then provider priority descending —
always, independent of the display sort mode. -/
def bestKey (e : Enriched) : Bool × Int × Int := (e.isCached, e.quality, e.providerPriority)

def bestLE (a b : Enriched) : Bool := cmp3 (bestKey a) (bestKey b) ≤ 0

/-- `getBestStream`: `null` on an empty map or an empty filtered
flatten; otherwise the head of the stable sort of the enriched streams
under `bestLE`. -/
def getBestStream (installedAddons : List String) (excludedQualities : List String)
    (m : GroupedStreams) : Option Stream :=
  if m.isEmpty then none
  else
    let allStreams := flatAll installedAddons excludedQualities m
    if allStreams.isEmpty then none
    else ((allStreams.insertionSort (fun a b => bestLE a b = true)).head?).map
      (fun e => e.stream)

theorem bestLE_total (a b : Enriched) : bestLE a b || bestLE b a := by
  simp only [bestLE, Bool.or_eq_true, decide_eq_true_iff]
  exact cmp3_total _ _

theorem bestLE_trans (a b c : Enriched) (h1 : bestLE a b) (h2 : bestLE b c) : bestLE a c := by
  simp only [bestLE, decide_eq_true_iff] at h1 h2 ⊢
  exact cmp3_trans h1 h2

/-! ## Display sections (`sections` memo, StreamsScreen.tsx 1155-1254) -/

structure SectionOut where
  title : String
  addonId : String
  data : List Stream
deriving DecidableEq, Repr

/-- JS `findIndex` over the installed-addon ids. -/
def jsFindIndex (installedAddons : List String) (x : String) : Int :=
  match installedAddons.findIdx? (fun a => a = x) with
  | some i => (i : Int)
  | none => -1

/-- Entry comparator of the `sections` memo (StreamsScreen.tsx
1176-1185): installed addons in installation order first, uninstalled
providers after them in arrival order. -/
def entryCmp (installedAddons : List String) (a b : String) : Int :=
  let ia := jsFindIndex installedAddons a
  let ib := jsFindIndex installedAddons b
  if ia ≠ -1 ∧ ib ≠ -1 then ia - ib
  else if ia ≠ -1 then -1
  else if ib ≠ -1 then 1
  else 0

/-- The provider filter of the `sections` memo (StreamsScreen.tsx
1160-1175). -/
def entrySelected (displayMode selectedProvider : String)
    (installedAddons : List String) (addonId : String) : Bool :=
  if selectedProvider = "all" then true
  else if displayMode = "grouped" && selectedProvider = "grouped-plugins" then
    !(installedAddons.any (fun a => a = addonId))
  else addonId = selectedProvider

/-- Accumulator of the grouped display mode (StreamsScreen.tsx
1190-1213). -/
structure GroupAcc where
  addonStreams : List Stream
  pluginStreams : List Stream
  addonNames : List String
  pluginNames : List String

/-- `if (!names.includes(n)) names.push(n)`. -/
def pushName (names : List String) (n : String) : List String :=
  if names.any (fun a => a = n) then names else names ++ [n]

def groupedStep (installedAddons excludedQualities : List String) (sortMode : String)
    (acc : GroupAcc) (p : String × ProviderEntry) : GroupAcc :=
  let sorted := sortStreams installedAddons sortMode
    (filterStreamsByQuality excludedQualities p.2.streams)
  if installedAddons.any (fun a => a = p.1) then
    { acc with addonStreams := acc.addonStreams ++ sorted,
               addonNames := pushName acc.addonNames p.2.addonName }
  else
    { acc with pluginStreams := acc.pluginStreams ++ sorted,
               pluginNames := pushName acc.pluginNames p.2.addonName }

/-- The `sections` memo.  `repoName` stands for
`localScraperService.getRepositoryName()`. -/
def sections (installedAddons excludedQualities : List String)
    (sortMode displayMode selectedProvider repoName : String)
    (m : GroupedStreams) : List SectionOut :=
  let filteredEntries :=
    (m.filter (fun p => entrySelected displayMode selectedProvider installedAddons p.1)).insertionSort
      (fun a b => entryCmp installedAddons a.1 b.1 ≤ 0)
  if displayMode = "grouped" then
    let acc := filteredEntries.foldl
      (groupedStep installedAddons excludedQualities sortMode) ⟨[], [], [], []⟩
    (if acc.addonStreams.length > 0 then
       [⟨String.intercalate ", " acc.addonNames, "grouped-addons",
         if sortMode = "quality-then-scraper" then
           sortStreams installedAddons sortMode acc.addonStreams
         else acc.addonStreams⟩]
     else []) ++
    (if acc.pluginStreams.length > 0 then
       [⟨repoName, "grouped-plugins",
         if sortMode = "quality-then-scraper" then
           sortStreams installedAddons sortMode acc.pluginStreams
         else acc.pluginStreams⟩]
     else [])
  else
    filteredEntries.map (fun p =>
      ⟨p.2.addonName, p.1,
        sortStreams installedAddons sortMode
          (filterStreamsByQuality excludedQualities p.2.streams)⟩)

/-! ## Stremio merge and orchestrator state
(`processStremioSource` / `loadStreams`, TV_SETUP.md 257-315, 884-942) -/

/-- The state update of one stremio per-addon callback
(TV_SETUP.md 266-305): on success with a non-empty list, the entry keyed
`addonId` is replaced by the latest reported list; an error, a missing
list, or an empty list leaves the map untouched. -/
def stremioMerge (prev : GroupedStreams) (streams : Option (List Stream))
    (addonId addonName : String) (error : Bool) : GroupedStreams :=
  if error then prev
  else
    match streams with
    | some ss =>
      if addonId ≠ "" && addonName ≠ "" then
        if ss.length > 0 then setEntry prev addonId ⟨addonName, ss⟩ else prev
      else prev
    | none => prev

/-- First line of a plugin stream's `name`
(`stream.name.split('\n')[0] || 'Unknown Plugin'`, TV_SETUP.md 356). -/
def firstLine (s : String) : String := String.mk (s.data.takeWhile (fun c => c ≠ '\n'))

/-- Grouping key of a plugin stream.  Plugin streams always carry a
`name`; a missing one is folded into the empty-string fallback. -/
def pluginKey (s : Stream) : String :=
  let fl := firstLine (s.name.getD "")
  if fl = "" then "Unknown Plugin" else fl

/-- One step of the `reduce` that groups plugin streams by plugin name
(TV_SETUP.md 355-362): create the entry on first sight (appended, JS
insertion order), then push the stream. -/
def addToGroup : GroupedStreams → String → Stream → GroupedStreams
  | [], k, s => [(k, ⟨k, [s]⟩)]
  | (k', e) :: rest, k, s =>
    if k' = k then (k', ⟨e.addonName, e.streams ++ [s]⟩) :: rest
    else (k', e) :: addToGroup rest k s

def groupByPlugin (streams : List Stream) : GroupedStreams :=
  streams.foldl (fun acc s => addToGroup acc (pluginKey s) s) []

/-- The state update of `processPluginSource` (TV_SETUP.md 340-379):
`{...prevState, ...streamsByPlugin}` when the batch is non-empty. -/
def pluginMerge (prev : GroupedStreams) (batch : List Stream) : GroupedStreams :=
  if batch.length > 0 then
    (groupByPlugin batch).foldl (fun acc p => setEntry acc p.1 p.2) prev
  else prev

/-- The orchestrator state of one streams screen: the live request's
content identity, the aggregate result map, and the loading flag. -/
structure OrchState where
  currentId : String
  groupedStreams : GroupedStreams
  loadingStreams : Bool
deriving DecidableEq

/-- Request start (`loadStreams` TV_SETUP.md 884-893 /
`loadEpisodeStreams` 912-926): mark loading, clear the previous
aggregate result map, adopt the new content identity. -/
def startRequest (contentId : String) (_s : OrchState) : OrchState :=
  { currentId := contentId, loadingStreams := true, groupedStreams := [] }

/-- A stremio per-addon callback acting on the orchestrator state
(TV_SETUP.md 266-305).  `originId` is the content id of the request the
callback was issued for; the source closure carries no generation token
and never compares it with the live request, so the update ignores it. -/
def deliverStremio (_originId : String) (streams : Option (List Stream))
    (addonId addonName : String) (error : Bool) (s : OrchState) : OrchState :=
  if error then s
  else
    match streams with
    | some ss =>
      if addonId ≠ "" && addonName ≠ "" then
        if ss.length > 0 then
          { s with groupedStreams := setEntry s.groupedStreams addonId ⟨addonName, ss⟩,
                   loadingStreams := false }
        else s
      else s
    | none => s

/-- The delay of the global `setTimeout` (TV_SETUP.md 909). -/
def timeoutDelayMs : Nat := 15000

/-- The body of the global timeout (TV_SETUP.md 904-909):
`if (loadingStreams) { setLoadingStreams(false); }`.  The read
`loadingStreams` is a `useState` constant captured by the closure in the
render that created this `loadStreams` instance (which is re-created
every render, with no ref mirror), so the body tests that captured
per-render value — `capturedLoading` — not the flag at fire time; only
the write `setLoadingStreams(false)` goes to the live state.  The timer
itself is registered only after `await Promise.all([stremioPromise,
pluginPromise])` resolves, not at request start. -/
def timeoutFire (capturedLoading : Bool) (s : OrchState) : OrchState :=
  if capturedLoading then { s with loadingStreams := false } else s

/-! ## Autoplay controller (StreamsScreen.tsx 562-571, 1041-1074) -/

structure AutoplayState where
  autoplayTriggered : Bool
  isAutoplayWaiting : Bool
deriving DecidableEq, Repr

/-- Autoplay reset when content changes (StreamsScreen.tsx 562-571):
`autoplayTriggered := false`; waiting iff autoplay is enabled. -/
def autoplayReset (autoplayEnabled : Bool) : AutoplayState := ⟨false, autoplayEnabled⟩

/-- One run of the autoplay effect (StreamsScreen.tsx 1041-1074) on a
freshly observed aggregate result map: the new controller state and the
stream handed to `handleStreamPress`, if any. -/
def autoplayStep (autoplayEnabled : Bool) (installedAddons excludedQualities : List String)
    (s : AutoplayState) (m : GroupedStreams) : AutoplayState × Option Stream :=
  if autoplayEnabled && !s.autoplayTriggered && s.isAutoplayWaiting then
    if m.length > 0 then
      match getBestStream installedAddons excludedQualities m with
      | some best => (⟨true, false⟩, some best)
      | none => ({ s with isAutoplayWaiting := false }, none)
    else (s, none)
  else (s, none)

/-- Fold the autoplay effect over successive map updates within one
request, counting playback invocations. -/
def autoplayRun (autoplayEnabled : Bool) (io ex : List String)
    (s : AutoplayState) : List GroupedStreams → AutoplayState × Nat
  | [] => (s, 0)
  | m :: ms =>
    let se := autoplayStep autoplayEnabled io ex s m
    let rest := autoplayRun autoplayEnabled io ex se.1 ms
    (rest.1, (if se.2.isSome then 1 else 0) + rest.2)

/-! ## Helper lemmas -/

theorem matchesAnyExcluded_nil (s : Stream) : matchesAnyExcluded [] s = false := rfl

theorem filterStreamsByQuality_eq_filter (ex : List String) (l : List Stream) :
    filterStreamsByQuality ex l = l.filter (fun s => !matchesAnyExcluded ex s) := by
  unfold filterStreamsByQuality
  by_cases h : ex.isEmpty
  · have hx : ex = [] := List.isEmpty_iff.mp h
    subst hx
    simp [matchesAnyExcluded_nil]
  · simp [h]

theorem mem_filterStreamsByQuality {ex : List String} {l : List Stream} {s : Stream} :
    s ∈ filterStreamsByQuality ex l ↔ s ∈ l ∧ matchesAnyExcluded ex s = false := by
  rw [filterStreamsByQuality_eq_filter, List.mem_filter]
  simp

theorem filterStreamsByQuality_sublist (ex : List String) (l : List Stream) :
    (filterStreamsByQuality ex l).Sublist l := by
  rw [filterStreamsByQuality_eq_filter]
  exact List.filter_sublist l

/-- The head of a list sorted by a reflexive `le` is `le` everything in
the list. -/
theorem head?_le_of_sorted {α : Type} {le : α → α → Bool} (hrefl : ∀ a, le a a = true)
    {l : List α} (hs : l.Pairwise (fun a b => le a b = true)) {x : α}
    (hx : l.head? = some x) : ∀ y ∈ l, le x y = true := by
  cases l with
  | nil => simp at hx
  | cons a t =>
    simp only [List.head?_cons, Option.some.injEq] at hx
    subst hx
    intro y hy
    rcases List.mem_cons.mp hy with rfl | hy
    · exact hrefl y
    · exact (List.pairwise_cons.mp hs).1 y hy

theorem enrich_stream (io : List String) (k : String) (s : Stream) :
    (enrich io k s).stream = s := rfl

theorem mem_flatAll {io ex : List String} {m : GroupedStreams} {e : Enriched} :
    e ∈ flatAll io ex m ↔
      ∃ p, p ∈ m ∧ ∃ s, s ∈ filterStreamsByQuality ex p.2.streams ∧ e = enrich io p.1 s := by
  unfold flatAll
  rw [List.mem_flatten]
  constructor
  · rintro ⟨l, hl, hel⟩
    rcases List.mem_map.mp hl with ⟨p, hp, rfl⟩
    rcases List.mem_map.mp hel with ⟨s, hs, rfl⟩
    exact ⟨p, hp, s, hs, rfl⟩
  · rintro ⟨p, hp, s, hs, rfl⟩
    exact ⟨_, List.mem_map_of_mem _ hp, List.mem_map_of_mem _ hs⟩

theorem flatAll_not_excluded {io ex : List String} {m : GroupedStreams} {e : Enriched}
    (h : e ∈ flatAll io ex m) : matchesAnyExcluded ex e.stream = false := by
  rcases mem_flatAll.mp h with ⟨p, _, s, hs, rfl⟩
  rw [enrich_stream]
  exact (mem_filterStreamsByQuality.mp hs).2

theorem bestLE_refl (a : Enriched) : bestLE a a = true := by
  simp [bestLE, cmp3_self]

theorem getBestStream_eq_none {io ex : List String} {m : GroupedStreams}
    (h : flatAll io ex m = []) : getBestStream io ex m = none := by
  unfold getBestStream
  by_cases hm : m.isEmpty
  · simp [hm]
  · simp only [Bool.not_eq_true] at hm
    simp [hm, h]

theorem getBestStream_spec_some {io ex : List String} {m : GroupedStreams}
    (h : flatAll io ex m ≠ []) :
    ∃ e, e ∈ flatAll io ex m ∧ getBestStream io ex m = some e.stream ∧
      ∀ e' ∈ flatAll io ex m, cmp3 (bestKey e) (bestKey e') ≤ 0 := by
  have hm : m.isEmpty = false := by
    cases m with
    | nil => exact absurd rfl h
    | cons p t => rfl
  haveI : IsTotal Enriched (fun a b => bestLE a b = true) :=
    ⟨fun a b => by simpa [Bool.or_eq_true] using bestLE_total a b⟩
  haveI : IsTrans Enriched (fun a b => bestLE a b = true) :=
    ⟨fun a b c hab hbc => bestLE_trans a b c hab hbc⟩
  set L := (flatAll io ex m).insertionSort (fun a b => bestLE a b = true) with hL
  have hperm : L.Perm (flatAll io ex m) := List.perm_insertionSort _ _
  have hLne : L ≠ [] := by
    intro h0
    apply h
    have hlen := hperm.length_eq
    rw [h0] at hlen
    exact List.eq_nil_of_length_eq_zero hlen.symm
  obtain ⟨e, t, het⟩ := List.exists_cons_of_ne_nil hLne
  have hhead : L.head? = some e := by rw [het]; rfl
  have hsorted : L.Pairwise (fun a b => bestLE a b = true) :=
    List.sorted_insertionSort _ (flatAll io ex m)
  have hmin : ∀ y ∈ L, bestLE e y = true := head?_le_of_sorted bestLE_refl hsorted hhead
  refine ⟨e, ?_, ?_, ?_⟩
  · exact hperm.mem_iff.mp (het ▸ List.mem_cons_self e t)
  · unfold getBestStream
    simp only [hm, Bool.false_eq_true, if_false]
    have hne : (flatAll io ex m).isEmpty = false := by
      cases hflat : flatAll io ex m with
      | nil => exact absurd hflat h
      | cons a b => rfl
    simp only [hne, Bool.false_eq_true, if_false, ← hL, hhead]
    rfl
  · intro e' he'
    have := hmin e' (hperm.mem_iff.mpr he')
    simpa [bestLE] using this

/-! ## Claim C6 — quality extraction -/

/-- The numeric values of the resolution alternatives. -/
theorem resolutionAlts_values :
    ∀ alt ∈ resolutionAlts,
      digitsToNat alt ∈ [240, 360, 480, 720, 1080, 1440, 2160, 4320, 8000] := by
  decide

theorem matchAltAt_mem {prev : Option Char} {s : List Char} {n : Nat}
    (h : matchAltAt prev s = some n) :
    n ∈ [240, 360, 480, 720, 1080, 1440, 2160, 4320, 8000] := by
  unfold matchAltAt at h
  rcases hfind : resolutionAlts.find? (fun alt =>
      boundaryBefore prev && alt.isPrefixOf s && boundaryAfter (s.drop alt.length)) with _ | alt
  · rw [hfind] at h; simp at h
  · rw [hfind] at h
    simp only [Option.map_some', Option.some.injEq] at h
    subst h
    exact resolutionAlts_values alt (List.mem_of_find?_eq_some hfind)

theorem bareResFrom_mem :
    ∀ (prev : Option Char) (s : List Char) (n : Nat), bareResFrom prev s = some n →
      n ∈ [240, 360, 480, 720, 1080, 1440, 2160, 4320, 8000]
  | _, [], _, h => by simp [bareResFrom] at h
  | prev, c :: rest, n, h => by
    unfold bareResFrom at h
    rcases halt : matchAltAt prev (c :: rest) with _ | v
    · rw [halt] at h
      exact bareResFrom_mem (some c) rest n h
    · rw [halt] at h
      simp only [Option.some.injEq] at h
      subst h
      exact matchAltAt_mem halt

theorem bareRes_mem {s : List Char} {n : Nat} (h : bareRes s = some n) :
    n ∈ [240, 360, 480, 720, 1080, 1440, 2160, 4320, 8000] :=
  bareResFrom_mem none s n h

/-- C6: quality extraction follows the priority order `4K token`, then
first number immediately followed by `p`, then bare known resolution
(always a member of the resolution set), and yields 0 when nothing
matches; together with the five concrete examples of the claim. -/
theorem C6_quality_spec :
    (∀ t : String, has4kToken t.data = true → getQualityNumeric (some t) = 2160) ∧
    (∀ (t : String) (n : Nat), has4kToken t.data = false → firstDigitsP t.data = some n →
      getQualityNumeric (some t) = n) ∧
    (∀ (t : String) (q : Nat), has4kToken t.data = false → firstDigitsP t.data = none →
      bareRes t.data = some q → getQualityNumeric (some t) = q) ∧
    (∀ t : String, has4kToken t.data = false → firstDigitsP t.data = none →
      bareRes t.data = none → getQualityNumeric (some t) = 0) ∧
    (∀ (s : List Char) (q : Nat), bareRes s = some q →
      q ∈ [240, 360, 480, 720, 1080, 1440, 2160, 4320, 8000]) ∧
    getQualityNumeric none = 0 ∧
    getQualityNumeric (some "Movie.1080p.BluRay") = 1080 ∧
    getQualityNumeric (some "Movie 4K HDR") = 2160 ∧
    getQualityNumeric (some "Movie") = 0 ∧
    getQualityNumeric (some "720") = 720 ∧
    getQualityNumeric (some "9999") = 0 := by
  refine ⟨?_, ?_, ?_, ?_, ?_, rfl, by decide, by decide, by decide, by decide, by decide⟩
  · intro t h
    simp [getQualityNumeric, h]
  · intro t n h4 hp
    simp [getQualityNumeric, h4, hp]
  · intro t q h4 hp hb
    have hq := bareRes_mem hb
    have hrange : 240 ≤ q ∧ q ≤ 8000 := by
      simp only [List.mem_cons, List.not_mem_nil, or_false] at hq
      rcases hq with rfl | rfl | rfl | rfl | rfl | rfl | rfl | rfl | rfl <;>
        exact ⟨by norm_num, by norm_num⟩
    simp [getQualityNumeric, h4, hp, hb, hrange.1, hrange.2]
  · intro t h4 hp hb
    simp [getQualityNumeric, h4, hp, hb]
  · intro s q h
    exact bareRes_mem h

/-- C6 witness: the general clauses applied at concrete titles. -/
theorem C6_quality_witness :
    getQualityNumeric (some "Movie 4K HDR") = 2160 ∧
    getQualityNumeric (some "Movie.1080p.BluRay") = 1080 :=
  ⟨C6_quality_spec.1 "Movie 4K HDR" (by decide),
   C6_quality_spec.2.1 "Movie.1080p.BluRay" 1080 (by decide) (by decide)⟩

/-! ## Claim C8 — provider priority -/

/-- 52 distinct installed provider ids. -/
def cexInstallOrder : List String := (List.range 52).map (fun i => "p" ++ toString i)

/-- C8 counterexample: with 52 installed providers, the last installed
provider scores `50 − 51 = −1`, strictly below the score 0 of a provider
absent from the install order — so 0 is neither the lowest possible
priority nor are priorities never negative. -/
theorem C8_priority_counterexample :
    getProviderPriority cexInstallOrder "p51" = -1 ∧
    getProviderPriority cexInstallOrder "absent" = 0 ∧
    getProviderPriority cexInstallOrder "p51" < getProviderPriority cexInstallOrder "absent" := by
  refine ⟨by decide, by decide, by decide⟩

/-- C8 (amended): a provider at index `i` of the install order has
priority `50 − i`, earlier index means strictly higher priority, a
provider absent from the install order has priority 0, and — whenever at
most 51 providers are installed — every priority is nonnegative, so 0 is
the lowest; with `providerInstallOrder = [A, B]` and an unknown provider
`C`, `priority(A) > priority(B) > priority(C) = 0`. -/
theorem C8_priority_amended :
    (∀ (order : List String) (id : String) (i : Nat),
      order.findIdx? (fun a => a = id) = some i →
      getProviderPriority order id = 50 - (i : Int)) ∧
    (∀ (order : List String) (id : String),
      order.findIdx? (fun a => a = id) = none → getProviderPriority order id = 0) ∧
    (∀ (order : List String) (a b : String) (i j : Nat),
      order.findIdx? (fun x => x = a) = some i → order.findIdx? (fun x => x = b) = some j →
      i < j → getProviderPriority order b < getProviderPriority order a) ∧
    (∀ (order : List String) (id : String), order.length ≤ 51 →
      0 ≤ getProviderPriority order id) ∧
    (getProviderPriority ["A", "B"] "A" > getProviderPriority ["A", "B"] "B" ∧
     getProviderPriority ["A", "B"] "B" > getProviderPriority ["A", "B"] "C" ∧
     getProviderPriority ["A", "B"] "C" = 0) := by
  refine ⟨?_, ?_, ?_, ?_, by decide, by decide, by decide⟩
  · intro order id i h
    simp [getProviderPriority, h]
  · intro order id h
    simp [getProviderPriority, h]
  · intro order a b i j ha hb hij
    simp [getProviderPriority, ha, hb]
    omega
  · intro order id hlen
    unfold getProviderPriority
    rcases hf : order.findIdx? (fun a => a = id) with _ | i
    · simp
    · have hi : i < order.length := (List.findIdx?_eq_some_iff_findIdx_eq.mp hf).1
      simp
      omega

/-- C8 witness: the nonnegativity clause applied at a concrete small
install order. -/
theorem C8_priority_witness :
    0 ≤ getProviderPriority ["A", "B"] "B" :=
  C8_priority_amended.2.2.2.1 ["A", "B"] "B" (by decide)

/-! ## Claim C5 — sortStreams -/

theorem sortLE_refl (io : List String) (mode : String) (a : Stream) :
    sortLE io mode a a = true := by
  unfold sortLE sortCmp
  by_cases h : mode = "quality-then-scraper" <;> simp [h, cmp3_self]

/-- Descending lexicographic comparison: cached first, then quality,
then provider priority — the order `quality-then-scraper` mode sorts
by. -/
def qfLex (io : List String) (a b : Stream) : Prop :=
  (isCachedS a = true ∧ isCachedS b = false) ∨
  (isCachedS a = isCachedS b ∧
    (sortQuality b < sortQuality a ∨ (sortQuality a = sortQuality b ∧
      (sortPriority io b < sortPriority io a ∨ sortPriority io a = sortPriority io b))))

/-- Descending lexicographic comparison: cached first, then provider
priority, then quality — the default (provider-first) order. -/
def pfLex (io : List String) (a b : Stream) : Prop :=
  (isCachedS a = true ∧ isCachedS b = false) ∨
  (isCachedS a = isCachedS b ∧
    (sortPriority io b < sortPriority io a ∨ (sortPriority io a = sortPriority io b ∧
      (sortQuality b < sortQuality a ∨ sortQuality a = sortQuality b))))

theorem sortLE_qts_iff (io : List String) (a b : Stream) :
    sortLE io "quality-then-scraper" a b = true ↔ qfLex io a b := by
  have h : sortCmp io "quality-then-scraper" a b =
      cmp3 (isCachedS a, sortQuality a, sortPriority io a)
           (isCachedS b, sortQuality b, sortPriority io b) := by
    simp [sortCmp]
  simp only [sortLE, decide_eq_true_eq, h, cmp3_nonpos_iff, qfLex]

theorem sortLE_other_iff (io : List String) (mode : String) (a b : Stream)
    (hm : mode ≠ "quality-then-scraper") :
    sortLE io mode a b = true ↔ pfLex io a b := by
  have h : sortCmp io mode a b =
      cmp3 (isCachedS a, sortPriority io a, sortQuality a)
           (isCachedS b, sortPriority io b, sortQuality b) := by
    simp [sortCmp, hm]
  simp only [sortLE, decide_eq_true_eq, h, cmp3_nonpos_iff, pfLex]

theorem sortLE_cached (io : List String) (mode : String) (a b : Stream)
    (h : sortLE io mode a b = true) : isCachedS b = true → isCachedS a = true := by
  intro hb
  unfold sortLE sortCmp at h
  by_cases hm : mode = "quality-then-scraper" <;> simp only [hm] at h <;>
    exact cmp3_cached (by simpa using h) hb

theorem sortLE_of_keys_eq (io : List String) (mode : String) (a b : Stream)
    (h1 : isCachedS a = isCachedS b) (h2 : sortQuality a = sortQuality b)
    (h3 : sortPriority io a = sortPriority io b) : sortLE io mode a b = true := by
  unfold sortLE sortCmp
  by_cases h : mode = "quality-then-scraper" <;> simp [h, h1, h2, h3, cmp3_self]

theorem sortStreams_sorted (io : List String) (mode : String) (l : List Stream) :
    (sortStreams io mode l).Pairwise (fun a b => sortLE io mode a b = true) := by
  haveI : IsTotal Stream (fun a b => sortLE io mode a b = true) :=
    ⟨fun a b => by simpa [Bool.or_eq_true] using sortLE_total io mode a b⟩
  haveI : IsTrans Stream (fun a b => sortLE io mode a b = true) :=
    ⟨fun a b c hab hbc => sortLE_trans io mode a b c hab hbc⟩
  exact List.sorted_insertionSort _ l

/-- C5: `sortStreams` permutes its input; the result is ordered by
cached descending in every mode; `quality-then-scraper` mode orders by
cached, then quality descending, then provider priority descending; any
other mode (provider-first, the default) orders by cached, then provider
priority descending, then quality descending; records equal on all three
keys keep their relative arrival order (stability); re-sorting an
already sorted list under the same policy is the identity. -/
theorem C5_sortStreams_spec :
    (∀ (io : List String) (mode : String) (l : List Stream),
      (sortStreams io mode l).Perm l) ∧
    (∀ (io : List String) (mode : String) (l : List Stream),
      (sortStreams io mode l).Pairwise (fun a b => isCachedS b = true → isCachedS a = true)) ∧
    (∀ (io : List String) (l : List Stream),
      (sortStreams io "quality-then-scraper" l).Pairwise (qfLex io)) ∧
    (∀ (io : List String) (mode : String) (l : List Stream), mode ≠ "quality-then-scraper" →
      (sortStreams io mode l).Pairwise (pfLex io)) ∧
    (∀ (io : List String) (mode : String) (l : List Stream) (a b : Stream),
      isCachedS a = isCachedS b → sortQuality a = sortQuality b →
      sortPriority io a = sortPriority io b →
      [a, b].Sublist l → [a, b].Sublist (sortStreams io mode l)) ∧
    (∀ (io : List String) (mode : String) (l : List Stream),
      sortStreams io mode (sortStreams io mode l) = sortStreams io mode l) := by
  refine ⟨?_, ?_, ?_, ?_, ?_, ?_⟩
  · exact fun io mode l => List.perm_insertionSort _ l
  · intro io mode l
    exact (sortStreams_sorted io mode l).imp (fun h => sortLE_cached io mode _ _ h)
  · intro io l
    exact (sortStreams_sorted io "quality-then-scraper" l).imp
      (fun h => (sortLE_qts_iff io _ _).mp h)
  · intro io mode l hm
    exact (sortStreams_sorted io mode l).imp (fun h => (sortLE_other_iff io mode _ _ hm).mp h)
  · intro io mode l a b h1 h2 h3 hsub
    exact List.pair_sublist_insertionSort (sortLE_of_keys_eq io mode a b h1 h2 h3) hsub
  · intro io mode l
    exact List.Sorted.insertionSort_eq (sortStreams_sorted io mode l)

/-! ## Concrete records used by witnesses -/

def wStream720 : Stream := ⟨"u1", some "720p", none, some "p1", some "P1", some false⟩

def wStream480c : Stream := ⟨"u2", some "480p", none, some "p2", some "P2", some true⟩

def wMap : GroupedStreams := [("p1", ⟨"P1", [wStream720]⟩), ("p2", ⟨"P2", [wStream480c]⟩)]

def wR1080 : Stream := ⟨"a", some "1080p", none, none, none, none⟩

def wR720 : Stream := ⟨"b", some "720p", none, none, none, none⟩

def wR480 : Stream := ⟨"c", some "480p", none, none, none, none⟩

/-- C5 witness: the default-mode ordering clause at a concrete list. -/
theorem C5_sortStreams_witness :
    (sortStreams [] "default" [wR480, wR1080, wR720]).Pairwise (pfLex []) :=
  C5_sortStreams_spec.2.2.2.1 [] "default" [wR480, wR1080, wR720] (by decide)

/-! ## Claim C1 — getBestStream -/

/-- C1: `getBestStream` drops excluded records first (no element of the
filtered flatten matches an excluded pattern), returns `none` exactly
when the filtered flatten is empty (in particular on an empty map), and
otherwise returns a member of the filtered flatten that is minimal under
the fixed cached-desc / quality-desc / provider-priority-desc comparator
— independent of any display sort mode, which `getBestStream` never
consults — and is cached whenever any filtered record is cached. -/
theorem C1_getBestStream_spec :
    (∀ (io ex : List String) (m : GroupedStreams),
      flatAll io ex m = [] → getBestStream io ex m = none) ∧
    (∀ (io ex : List String) (m : GroupedStreams), flatAll io ex m ≠ [] →
      ∃ e, e ∈ flatAll io ex m ∧ getBestStream io ex m = some e.stream ∧
        (∀ e' ∈ flatAll io ex m, cmp3 (bestKey e) (bestKey e') ≤ 0) ∧
        ((∃ c ∈ flatAll io ex m, c.isCached = true) → e.isCached = true)) ∧
    (∀ (io ex : List String) (m : GroupedStreams) (e : Enriched),
      e ∈ flatAll io ex m → matchesAnyExcluded ex e.stream = false) := by
  refine ⟨?_, ?_, ?_⟩
  · exact fun io ex m h => getBestStream_eq_none h
  · intro io ex m h
    obtain ⟨e, hmem, heq, hmin⟩ := getBestStream_spec_some h
    refine ⟨e, hmem, heq, hmin, ?_⟩
    rintro ⟨c, hc, hcc⟩
    exact cmp3_cached (hmin c hc) hcc
  · exact fun io ex m e h => flatAll_not_excluded h

/-- C1 witness: the spec's two-adapter scenario — an uncached 720p
record and a cached 480p record; the cached one wins. -/
theorem C1_getBestStream_witness :
    ∃ e, e ∈ flatAll [] [] wMap ∧ getBestStream [] [] wMap = some e.stream ∧
      (∀ e' ∈ flatAll [] [] wMap, cmp3 (bestKey e) (bestKey e') ≤ 0) ∧
      ((∃ c ∈ flatAll [] [] wMap, c.isCached = true) → e.isCached = true) :=
  C1_getBestStream_spec.2.1 [] [] wMap (by decide)

/-! ## Claim C7 — quality exclusion is applied everywhere -/

theorem mem_sortStreams {io : List String} {mode : String} {l : List Stream} {s : Stream} :
    s ∈ sortStreams io mode l ↔ s ∈ l :=
  List.mem_insertionSort _

theorem mem_sorted_filtered {io ex : List String} {mode : String} {l : List Stream} {s : Stream}
    (h : s ∈ sortStreams io mode (filterStreamsByQuality ex l)) :
    matchesAnyExcluded ex s = false :=
  (mem_filterStreamsByQuality.mp (mem_sortStreams.mp h)).2

theorem foldl_groupedStep_not_excluded (io ex : List String) (mode : String) :
    ∀ (entries : List (String × ProviderEntry)) (acc : GroupAcc),
      (∀ t ∈ acc.addonStreams, matchesAnyExcluded ex t = false) →
      (∀ t ∈ acc.pluginStreams, matchesAnyExcluded ex t = false) →
      (∀ t ∈ (entries.foldl (groupedStep io ex mode) acc).addonStreams,
        matchesAnyExcluded ex t = false) ∧
      (∀ t ∈ (entries.foldl (groupedStep io ex mode) acc).pluginStreams,
        matchesAnyExcluded ex t = false)
  | [], acc, ha, hp => ⟨ha, hp⟩
  | p :: rest, acc, ha, hp => by
    rw [List.foldl_cons]
    apply foldl_groupedStep_not_excluded io ex mode rest
    · intro t ht
      unfold groupedStep at ht
      by_cases hin : io.any (fun a => a = p.1) <;> simp [hin] at ht
      · rcases ht with h1 | h1
        · exact ha t h1
        · exact mem_sorted_filtered h1
      · exact ha t ht
    · intro t ht
      unfold groupedStep at ht
      by_cases hin : io.any (fun a => a = p.1) <;> simp [hin] at ht
      · exact hp t ht
      · rcases ht with h1 | h1
        · exact hp t h1
        · exact mem_sorted_filtered h1

theorem sections_not_excluded {io ex : List String}
    {sortMode displayMode sel repo : String} {m : GroupedStreams}
    {sec : SectionOut} {s : Stream}
    (hsec : sec ∈ sections io ex sortMode displayMode sel repo m)
    (hs : s ∈ sec.data) : matchesAnyExcluded ex s = false := by
  unfold sections at hsec
  by_cases hd : displayMode = "grouped"
  · subst hd
    rw [if_pos rfl] at hsec
    set acc := ((m.filter
        (fun p => entrySelected "grouped" sel io p.1)).insertionSort
        (fun a b => entryCmp io a.1 b.1 ≤ 0)).foldl
        (groupedStep io ex sortMode) ⟨[], [], [], []⟩ with hacc
    have hinv := foldl_groupedStep_not_excluded io ex sortMode
      ((m.filter (fun p => entrySelected "grouped" sel io p.1)).insertionSort
        (fun a b => entryCmp io a.1 b.1 ≤ 0)) ⟨[], [], [], []⟩
      (by intro t ht; simp at ht) (by intro t ht; simp at ht)
    rw [← hacc] at hinv
    rcases List.mem_append.mp hsec with h1 | h1
    · by_cases hlen : acc.addonStreams.length > 0
      · rw [if_pos hlen] at h1
        have hsec' : sec = ⟨String.intercalate ", " acc.addonNames, "grouped-addons",
            if sortMode = "quality-then-scraper" then
              sortStreams io sortMode acc.addonStreams
            else acc.addonStreams⟩ := List.mem_singleton.mp h1
        subst hsec'
        by_cases hq : sortMode = "quality-then-scraper"
        · rw [show (⟨String.intercalate ", " acc.addonNames, "grouped-addons",
              if sortMode = "quality-then-scraper" then
                sortStreams io sortMode acc.addonStreams
              else acc.addonStreams⟩ : SectionOut).data =
              sortStreams io sortMode acc.addonStreams from by rw [if_pos hq]] at hs
          exact hinv.1 s (mem_sortStreams.mp hs)
        · rw [show (⟨String.intercalate ", " acc.addonNames, "grouped-addons",
              if sortMode = "quality-then-scraper" then
                sortStreams io sortMode acc.addonStreams
              else acc.addonStreams⟩ : SectionOut).data = acc.addonStreams from by
            rw [if_neg hq]] at hs
          exact hinv.1 s hs
      · rw [if_neg hlen] at h1
        simp at h1
    · by_cases hlen : acc.pluginStreams.length > 0
      · rw [if_pos hlen] at h1
        have hsec' : sec = ⟨repo, "grouped-plugins",
            if sortMode = "quality-then-scraper" then
              sortStreams io sortMode acc.pluginStreams
            else acc.pluginStreams⟩ := List.mem_singleton.mp h1
        subst hsec'
        by_cases hq : sortMode = "quality-then-scraper"
        · rw [show (⟨repo, "grouped-plugins",
              if sortMode = "quality-then-scraper" then
                sortStreams io sortMode acc.pluginStreams
              else acc.pluginStreams⟩ : SectionOut).data =
              sortStreams io sortMode acc.pluginStreams from by rw [if_pos hq]] at hs
          exact hinv.2 s (mem_sortStreams.mp hs)
        · rw [show (⟨repo, "grouped-plugins",
              if sortMode = "quality-then-scraper" then
                sortStreams io sortMode acc.pluginStreams
              else acc.pluginStreams⟩ : SectionOut).data = acc.pluginStreams from by
            rw [if_neg hq]] at hs
          exact hinv.2 s hs
      · rw [if_neg hlen] at h1
        simp at h1
  · rw [if_neg hd] at hsec
    rcases List.mem_map.mp hsec with ⟨p, hpmem, rfl⟩
    exact mem_sorted_filtered hs

/-- C7: the quality-exclusion filter keeps exactly the non-matching
records in their original order; it is applied inside every display
section (flat or grouped) and inside autoplay ranking, so an excluded
record never appears in any section's data or as the best-stream
candidate; the `[1080p, 720p, 480p]` / `["480p"]` example filters to
length 2 without the 480p record. -/
theorem C7_filter_spec :
    (∀ (ex : List String) (l : List Stream),
      filterStreamsByQuality ex l = l.filter (fun s => !matchesAnyExcluded ex s)) ∧
    (∀ (ex : List String) (l : List Stream), (filterStreamsByQuality ex l).Sublist l) ∧
    (∀ (ex : List String) (l : List Stream) (s : Stream),
      s ∈ filterStreamsByQuality ex l ↔ s ∈ l ∧ matchesAnyExcluded ex s = false) ∧
    (∀ (io ex : List String) (sortMode displayMode sel repo : String) (m : GroupedStreams)
      (sec : SectionOut) (s : Stream), sec ∈ sections io ex sortMode displayMode sel repo m →
      s ∈ sec.data → matchesAnyExcluded ex s = false) ∧
    (∀ (io ex : List String) (m : GroupedStreams) (s : Stream),
      getBestStream io ex m = some s → matchesAnyExcluded ex s = false) ∧
    ((filterStreamsByQuality ["480p"] [wR1080, wR720, wR480]).length = 2 ∧
      wR480 ∉ filterStreamsByQuality ["480p"] [wR1080, wR720, wR480]) := by
  refine ⟨filterStreamsByQuality_eq_filter, filterStreamsByQuality_sublist,
    fun ex l s => mem_filterStreamsByQuality, ?_, ?_, by decide, by decide⟩
  · intro io ex sortMode displayMode sel repo m sec s hsec hs
    exact sections_not_excluded hsec hs
  · intro io ex m s h
    by_cases hflat : flatAll io ex m = []
    · rw [getBestStream_eq_none hflat] at h
      exact absurd h (by simp)
    · obtain ⟨e, hmem, heq, -⟩ := getBestStream_spec_some hflat
      rw [heq] at h
      have hse : s = e.stream := by
        simpa using h.symm
      rw [hse]
      exact flatAll_not_excluded hmem

/-- C7 witness: the best-candidate clause at a concrete map with an
excluded cached record — the surviving record matches no pattern. -/
theorem C7_filter_witness :
    matchesAnyExcluded ["480p"] wStream720 = false :=
  C7_filter_spec.2.2.2.2.1 [] ["480p"] wMap wStream720 (by decide)

/-! ## Claim C2 — per-provider replacement merge -/

/-- C2 counterexample: a provider reports batch A = `[wStream720]` and
then batch B = `[]` in the same request; the map afterwards still holds
A's streams, not B's — the claim's "for every batch B the map holds
exactly B's streams" fails because an empty batch is ignored. -/
theorem C2_replace_counterexample :
    lookupEntry (stremioMerge (stremioMerge [] (some [wStream720]) "p1" "Prov" false)
      (some []) "p1" "Prov" false) "p1" = some ⟨"Prov", [wStream720]⟩ ∧
    lookupEntry (stremioMerge (stremioMerge [] (some [wStream720]) "p1" "Prov" false)
      (some []) "p1" "Prov" false) "p1" ≠ some ⟨"Prov", ([] : List Stream)⟩ := by
  refine ⟨by decide, by decide⟩

/-- C2 (amended): within one request, when an adapter reports batch A
and then a *non-empty* batch B for the same provider id, the map holds
exactly B's streams for that provider (replacement, never the union);
an empty batch is ignored and leaves the provider's previous list in
place. -/
theorem C2_replace_amended :
    (∀ (prev : GroupedStreams) (id name : String) (A B : List Stream),
      id ≠ "" → name ≠ "" → B ≠ [] →
      lookupEntry (stremioMerge (stremioMerge prev (some A) id name false)
        (some B) id name false) id = some ⟨name, B⟩) ∧
    (∀ (prev : GroupedStreams) (id name : String),
      stremioMerge prev (some []) id name false = prev) := by
  constructor
  · intro prev id name A B hid hname hB
    have hlen : B.length > 0 := List.length_pos.mpr hB
    unfold stremioMerge
    simp [hid, hname, hlen, lookupEntry_setEntry_self]
  · intro prev id name
    simp [stremioMerge]

/-- C2 witness: replacement at a concrete pair of non-empty batches. -/
theorem C2_replace_witness :
    lookupEntry (stremioMerge (stremioMerge [] (some [wStream720]) "p1" "Prov" false)
      (some [wStream480c]) "p1" "Prov" false) "p1" = some ⟨"Prov", [wStream480c]⟩ :=
  C2_replace_amended.1 [] "p1" "Prov" [wStream720] [wStream480c]
    (by decide) (by decide) (by decide)

/-! ## Claim C3 — superseded requests (code bug: no generation check) -/

def initOrch : OrchState := ⟨"", [], false⟩

/-- C3: the claim requires that an adapter result for request X arriving
after X was superseded by request Y is discarded.  The source has no
generation or liveness check: the same state update runs no matter which
request the callback belonged to.  Concretely, after `startRequest "X"`,
`startRequest "Y"`, a late stremio callback of request X delivers
`[wStream720]` for provider `p1`, and that entry lands in Y's aggregate
result map. -/
theorem C3_stale_merge :
    (deliverStremio "X" (some [wStream720]) "p1" "Prov" false
      (startRequest "Y" (startRequest "X" initOrch))).currentId = "Y" ∧
    lookupEntry (deliverStremio "X" (some [wStream720]) "p1" "Prov" false
      (startRequest "Y" (startRequest "X" initOrch))).groupedStreams "p1" =
      some ⟨"Prov", [wStream720]⟩ ∧
    (∀ (originId : String) (streams : Option (List Stream)) (addonId addonName : String)
      (error : Bool) (s : OrchState),
      deliverStremio originId streams addonId addonName error s =
        deliverStremio s.currentId streams addonId addonName error s) := by
  refine ⟨by decide, by decide, ?_⟩
  intro originId streams addonId addonName error s
  rfl

/-! ## Claim C4 — 15-second global timeout (code bug: stale closure) -/

/-- C4: the claim requires that 15 seconds after a request starts, a
still-true loading flag is forced false.  The source's timeout body
tests the closure-captured per-render value of `loadingStreams`, not the
live flag.  On the normal path the render that created `loadStreams` had
`loadingStreams = false` (fresh screen, or the previous request's flag
already cleared), so the captured value is `false` and the body is a
no-op: after `startRequest` the live flag is `true`, yet firing the
timeout leaves the whole state — flag included — unchanged.  The delay
constant is 15000 ms; only a (counterfactual) `true` capture would clear
the flag, and the aggregate result map is never touched either way. -/
theorem C4_stale_timeout :
    (startRequest "X" initOrch).loadingStreams = true ∧
    timeoutFire false (startRequest "X" initOrch) = startRequest "X" initOrch ∧
    (timeoutFire false (startRequest "X" initOrch)).loadingStreams = true ∧
    timeoutDelayMs = 15000 ∧
    (∀ s : OrchState, timeoutFire true s = { s with loadingStreams := false }) ∧
    (∀ (captured : Bool) (s : OrchState),
      (timeoutFire captured s).groupedStreams = s.groupedStreams ∧
      (timeoutFire captured s).currentId = s.currentId) := by
  refine ⟨rfl, rfl, rfl, rfl, fun s => rfl, ?_⟩
  intro captured s
  cases captured
  · exact ⟨rfl, rfl⟩
  · exact ⟨rfl, rfl⟩

/-! ## Claim C9 — autoplay controller -/

/-- C9: with autoplay disabled the controller state never changes and
playback is never invoked; once `autoplayTriggered` is set no run of the
effect changes the state or plays anything; over any sequence of map
updates within one request, playback is invoked at most once; an empty
map update changes nothing; and while enabled, untriggered and waiting,
every non-empty map update re-evaluates `getBestStream` — triggering on
a candidate, or clearing the waiting flag when there is none. -/
theorem C9_autoplay_spec :
    (∀ (io ex : List String) (s : AutoplayState) (ms : List GroupedStreams),
      autoplayRun false io ex s ms = (s, 0)) ∧
    (∀ (io ex : List String) (enabled : Bool) (s : AutoplayState) (ms : List GroupedStreams),
      s.autoplayTriggered = true → autoplayRun enabled io ex s ms = (s, 0)) ∧
    (∀ (io ex : List String) (enabled : Bool) (s : AutoplayState) (ms : List GroupedStreams),
      (autoplayRun enabled io ex s ms).2 ≤ 1) ∧
    (∀ (io ex : List String) (enabled : Bool) (s : AutoplayState),
      autoplayStep enabled io ex s [] = (s, none)) ∧
    (∀ (io ex : List String) (s : AutoplayState) (m : GroupedStreams),
      s.autoplayTriggered = false → s.isAutoplayWaiting = true → m.length > 0 →
      autoplayStep true io ex s m =
        (match getBestStream io ex m with
         | some best => (⟨true, false⟩, some best)
         | none => (⟨false, false⟩, none))) := by
  have hdis : ∀ (io ex : List String) (s : AutoplayState) (ms : List GroupedStreams),
      autoplayRun false io ex s ms = (s, 0) := by
    intro io ex s ms
    induction ms with
    | nil => rfl
    | cons m rest ih =>
      unfold autoplayRun autoplayStep
      simp [ih]
  have htrig : ∀ (io ex : List String) (enabled : Bool) (s : AutoplayState)
      (ms : List GroupedStreams), s.autoplayTriggered = true →
      autoplayRun enabled io ex s ms = (s, 0) := by
    intro io ex enabled s ms h
    induction ms with
    | nil => rfl
    | cons m rest ih =>
      unfold autoplayRun autoplayStep
      simp [h, ih]
  have hstep : ∀ (io ex : List String) (enabled : Bool) (s : AutoplayState) (m : GroupedStreams),
      (autoplayStep enabled io ex s m).2 = none ∧
        (autoplayStep enabled io ex s m).1.autoplayTriggered = s.autoplayTriggered ∨
      (autoplayStep enabled io ex s m).2.isSome = true ∧
        (autoplayStep enabled io ex s m).1.autoplayTriggered = true := by
    intro io ex enabled s m
    unfold autoplayStep
    by_cases hg : (enabled && !s.autoplayTriggered && s.isAutoplayWaiting) = true
    · rw [if_pos hg]
      by_cases hm : m.length > 0
      · rw [if_pos hm]
        rcases hb : getBestStream io ex m with _ | best
        · exact Or.inl ⟨rfl, rfl⟩
        · exact Or.inr ⟨rfl, rfl⟩
      · rw [if_neg hm]
        exact Or.inl ⟨rfl, rfl⟩
    · rw [if_neg hg]
      exact Or.inl ⟨rfl, rfl⟩
  refine ⟨hdis, htrig, ?_, ?_, ?_⟩
  · intro io ex enabled s ms
    induction ms generalizing s with
    | nil => simp [autoplayRun]
    | cons m rest ih =>
      unfold autoplayRun
      rcases hstep io ex enabled s m with ⟨h1, _⟩ | ⟨h1, h2⟩
      · simp only [h1]
        simpa using ih _
      · simp only [h1]
        rw [htrig io ex enabled _ rest h2]
        simp
  · intro io ex enabled s
    unfold autoplayStep
    by_cases hg : (enabled && !s.autoplayTriggered && s.isAutoplayWaiting) = true <;>
      simp [hg]
  · intro io ex s m h1 h2 hm
    have hs : s = ⟨false, true⟩ := by
      cases s
      simp_all
    subst hs
    rcases hb : getBestStream io ex m with _ | best <;>
      simp [autoplayStep, hm, hb]

/-- C9 witness: the re-evaluation clause at a concrete waiting state and
non-empty map. -/
theorem C9_autoplay_witness :
    autoplayStep true [] [] ⟨false, true⟩ wMap =
      (match getBestStream [] [] wMap with
       | some best => (⟨true, false⟩, some best)
       | none => (⟨false, false⟩, none)) :=
  C9_autoplay_spec.2.2.2.2 [] [] ⟨false, true⟩ wMap rfl rfl (by decide)

/-! ## Claim C10 — frame effect of the two merges -/

theorem mem_keys_addToGroup :
    ∀ (m : GroupedStreams) (k0 : String) (s : Stream) (k : String),
      k ∈ (addToGroup m k0 s).map Prod.fst → k ∈ m.map Prod.fst ∨ k = k0
  | [], k0, s, k => by
    intro h
    rw [addToGroup] at h
    simp at h
    exact Or.inr h
  | (k', e) :: rest, k0, s, k => by
    intro h
    by_cases hk : k' = k0
    · rw [addToGroup, if_pos hk] at h
      rw [List.map_cons, List.mem_cons] at h
      rcases h with rfl | h
      · exact Or.inl (by simp)
      · exact Or.inl (by rw [List.map_cons, List.mem_cons]; exact Or.inr h)
    · rw [addToGroup, if_neg hk] at h
      rw [List.map_cons, List.mem_cons] at h
      rcases h with rfl | h
      · exact Or.inl (by simp)
      · rcases mem_keys_addToGroup rest k0 s k h with h1 | h1
        · exact Or.inl (by rw [List.map_cons, List.mem_cons]; exact Or.inr h1)
        · exact Or.inr h1

theorem mem_keys_groupByPlugin {batch : List Stream} {k : String}
    (h : k ∈ (groupByPlugin batch).map Prod.fst) : ∃ s ∈ batch, pluginKey s = k := by
  unfold groupByPlugin at h
  suffices haux : ∀ (l : List Stream) (acc : GroupedStreams),
      k ∈ (l.foldl (fun acc s => addToGroup acc (pluginKey s) s) acc).map Prod.fst →
      k ∈ acc.map Prod.fst ∨ ∃ s ∈ l, pluginKey s = k by
    rcases haux batch [] h with h1 | h1
    · simp at h1
    · exact h1
  intro l
  induction l with
  | nil => exact fun acc h => Or.inl h
  | cons s rest ih =>
    intro acc h
    rw [List.foldl_cons] at h
    rcases ih _ h with h1 | h1
    · rcases mem_keys_addToGroup acc (pluginKey s) s k h1 with h2 | h2
      · exact Or.inl h2
      · exact Or.inr ⟨s, List.mem_cons_self s rest, h2.symm⟩
    · rcases h1 with ⟨t, ht, hkt⟩
      exact Or.inr ⟨t, List.mem_cons_of_mem s ht, hkt⟩

theorem lookupEntry_foldl_setEntry :
    ∀ (l : GroupedStreams) (prev : GroupedStreams) (k : String),
      (∀ p ∈ l, p.1 ≠ k) →
      lookupEntry (l.foldl (fun acc p => setEntry acc p.1 p.2) prev) k = lookupEntry prev k
  | [], prev, k, _ => rfl
  | p :: rest, prev, k, h => by
    rw [List.foldl_cons]
    rw [lookupEntry_foldl_setEntry rest _ k (fun q hq => h q (List.mem_cons_of_mem p hq))]
    exact lookupEntry_setEntry_other prev p.1 k p.2
      (Ne.symm (h p (List.mem_cons_self p rest)))

/-- C10: merging one adapter batch touches no other provider's entry —
the stremio merge can only change the entry keyed by the reporting addon
id, and the plugin merge can only change entries keyed by the plugin
display names occurring in the batch; every other key maps to the same
entry before and after. -/
theorem C10_frame_spec :
    (∀ (prev : GroupedStreams) (streams : Option (List Stream)) (id name : String)
      (error : Bool) (k : String), k ≠ id →
      lookupEntry (stremioMerge prev streams id name error) k = lookupEntry prev k) ∧
    (∀ (prev : GroupedStreams) (batch : List Stream) (k : String),
      (∀ s ∈ batch, pluginKey s ≠ k) →
      lookupEntry (pluginMerge prev batch) k = lookupEntry prev k) := by
  constructor
  · intro prev streams id name error k hk
    unfold stremioMerge
    cases error
    · rcases streams with _ | ss
      · rfl
      · by_cases hid : id = ""
        · simp [hid]
        · by_cases hname : name = ""
          · simp [hid, hname]
          · by_cases hlen : ss.length > 0
            · simp [hid, hname, hlen, lookupEntry_setEntry_other prev id k ⟨name, ss⟩ hk]
            · simp [hid, hname, hlen]
    · rfl
  · intro prev batch k hkeys
    unfold pluginMerge
    by_cases hlen : batch.length > 0
    · rw [if_pos hlen]
      apply lookupEntry_foldl_setEntry
      intro p hp hpk
      have hmem : p.1 ∈ (groupByPlugin batch).map Prod.fst := List.mem_map_of_mem _ hp
      rcases mem_keys_groupByPlugin (hpk ▸ hmem) with ⟨s, hs, hks⟩
      exact hkeys s hs hks
    · rw [if_neg hlen]

/-- C10 witness: a plugin batch leaves an unrelated provider key
untouched. -/
theorem C10_frame_witness :
    lookupEntry (pluginMerge wMap [wStream720]) "p2" = lookupEntry wMap "p2" :=
  C10_frame_spec.2 wMap [wStream720] "p2" (by decide)

end Nuvio
